import Mathlib

/-!
Verification of the client-side logic of the AI Study Buddy frontend:
the timestamp search/filter and time formatting of
`frontend/src/components/TimestampsSection.js`, and the quiz scoring
engine and submit gate of `frontend/src/components/QuizSection.js`.

JavaScript strings are embedded as Lean `String`; JS objects keyed by
question index are embedded as association lists / index-to-option
maps; JS number arithmetic on the small integer ratios appearing here
is embedded as exact rational arithmetic, with `none` standing for the
non-finite result (`NaN`) produced by division by zero.
-/

namespace StudyBuddy

/-! ## JavaScript string primitives -/

/-- Embedding of JS `String.prototype.toLowerCase` (simple per-character
lowercase mapping). -/
def toLowerCase (s : String) : String := String.mk (s.data.map Char.toLower)

/-- `startsWithChars needle hay` : does `hay` start with `needle`? -/
def startsWithChars : List Char → List Char → Bool
  | [], _ => true
  | _ :: _, [] => false
  | a :: as, b :: bs => a == b && startsWithChars as bs

/-- `containsSubChars needle hay` : does `needle` occur contiguously in
`hay`?  Embedding of JS `String.prototype.includes` (receiver second). -/
def containsSubChars (needle : List Char) : List Char → Bool
  | [] => startsWithChars needle []
  | b :: bs => startsWithChars needle (b :: bs) || containsSubChars needle bs

/-- Embedding of JS `a.includes(b)` on strings. -/
def jsIncludes (a b : String) : Bool := containsSubChars b.data a.data

/-- Embedding of JS `String.prototype.padStart(n, c)`. -/
def padStart (s : String) (n : Nat) (c : Char) : String :=
  String.mk (List.replicate (n - s.length) c) ++ s

/-! ## Data model (spec §3) -/

/-- `TimestampEntry` of the spec data model. -/
structure TimestampEntry where
  time : String
  seconds : Nat
  topic : String
  description : String
  keywords : List String
  deriving DecidableEq, Repr

/-! ## TimestampsSection.js -/

/-- Source: `TimestampsSection.js`, `filteredTimestamps`.
`timestamps.filter(...)` with the text match over topic, description and
keywords, conjoined with the topic-selector match. -/
def filteredTimestamps (timestamps : List TimestampEntry)
    (searchTerm selectedTopic : String) : List TimestampEntry :=
  timestamps.filter fun timestamp =>
    (jsIncludes (toLowerCase timestamp.topic) (toLowerCase searchTerm) ||
     jsIncludes (toLowerCase timestamp.description) (toLowerCase searchTerm) ||
     timestamp.keywords.any fun keyword =>
       jsIncludes (toLowerCase keyword) (toLowerCase searchTerm)) &&
    (selectedTopic == "all" || timestamp.topic == selectedTopic)

/-- Source: `TimestampsSection.js`, `formatTime`. -/
def formatTime (seconds : Nat) : String :=
  let minutes := seconds / 60
  let remainingSeconds := seconds % 60
  toString minutes ++ ":" ++ padStart (toString remainingSeconds) 2 '0'

/-- Embedding of `[...new Set(l)]` : the distinct elements of `l` in
first-seen order (JS `Set` preserves insertion order). -/
def jsSetList (l : List String) : List String := go [] l
where
  /-- `go seen l` keeps the elements of `l` not already seen. -/
  go (seen : List String) : List String → List String
    | [] => []
    | x :: xs => if x ∈ seen then go seen xs else x :: go (x :: seen) xs

/-- Source: `TimestampsSection.js`, `topics`:
`["all", ...new Set(timestamps.map(ts => ts.topic))]`. -/
def topics (timestamps : List TimestampEntry) : List String :=
  "all" :: jsSetList (timestamps.map fun ts => ts.topic)

/-! ## Spec-side definitions (following the wording of the claims) -/

/-- The claim wording "`q` appears as a substring of `s`": some decomposition
`s = pre ++ q ++ post`. -/
def SubstringOf (q s : String) : Prop := ∃ pre post : String, s = pre ++ q ++ post

/-- The claim wording "case-insensitive substring": substring after
lowercasing both sides. -/
def CISubstringOf (q s : String) : Prop :=
  SubstringOf (toLowerCase q) (toLowerCase s)

/-- The claim inclusion condition for a timestamp entry: the query is
a case-insensitive substring of topic, description, or some keyword,
AND the selector is `"all"` or exactly the topic of the entry. -/
def SpecCond (q t : String) (e : TimestampEntry) : Prop :=
  (CISubstringOf q e.topic ∨ CISubstringOf q e.description ∨
    ∃ k ∈ e.keywords, CISubstringOf q k) ∧
  (t = "all" ∨ e.topic = t)

/-- The claim wording "de-duplicated in first-seen order", written as a fold
that appends each element not yet present. -/
def specDedupFirstSeen (l : List String) : List String :=
  l.foldl (fun acc x => if x ∈ acc then acc else acc ++ [x]) []

/-- The claim wording "zero-padded to two digits". -/
def zeroPad2 (m : Nat) : String :=
  if m < 10 then "0" ++ toString m else toString m

/-! ## Properties of the string primitives -/

theorem startsWithChars_iff (n : List Char) :
    ∀ h : List Char, startsWithChars n h = true ↔ ∃ t, h = n ++ t := by
  induction n with
  | nil =>
    intro h
    simp [startsWithChars]
  | cons a as ih =>
    intro h
    cases h with
    | nil =>
      simp [startsWithChars]
    | cons b bs =>
      simp only [startsWithChars, Bool.and_eq_true, beq_iff_eq, ih bs]
      constructor
      · rintro ⟨rfl, t, rfl⟩
        exact ⟨t, rfl⟩
      · rintro ⟨t, ht⟩
        cases ht
        exact ⟨rfl, t, rfl⟩

theorem containsSubChars_iff (n : List Char) :
    ∀ h : List Char, containsSubChars n h = true ↔ ∃ p s, h = p ++ n ++ s := by
  intro h
  induction h with
  | nil =>
    simp only [containsSubChars, startsWithChars_iff]
    constructor
    · rintro ⟨t, ht⟩
      exact ⟨[], t, by simpa using ht⟩
    · rintro ⟨p, s, hps⟩
      have hp : p = [] := by
        cases p with
        | nil => rfl
        | cons c cs => simp at hps
      subst hp
      exact ⟨s, by simpa using hps⟩
  | cons b bs ih =>
    simp only [containsSubChars, Bool.or_eq_true, startsWithChars_iff, ih]
    constructor
    · rintro (⟨t, ht⟩ | ⟨p, s, hps⟩)
      · exact ⟨[], t, by simpa using ht⟩
      · exact ⟨b :: p, s, by simp [hps]⟩
    · rintro ⟨p, s, hps⟩
      cases p with
      | nil =>
        exact Or.inl ⟨s, by simpa using hps⟩
      | cons c cs =>
        simp only [List.cons_append, List.cons.injEq] at hps
        exact Or.inr ⟨cs, s, hps.2⟩

theorem containsSubChars_nil_left : ∀ h : List Char, containsSubChars [] h = true
  | [] => rfl
  | _ :: bs => by simp [containsSubChars, startsWithChars, containsSubChars_nil_left bs]

theorem data_append (a b : String) : (a ++ b).data = a.data ++ b.data := rfl

theorem substringOf_iff_containsSubChars (q s : String) :
    SubstringOf q s ↔ containsSubChars q.data s.data = true := by
  rw [containsSubChars_iff]
  constructor
  · rintro ⟨pre, post, rfl⟩
    exact ⟨pre.data, post.data, by simp [data_append]⟩
  · rintro ⟨p, t, hpt⟩
    refine ⟨String.mk p, String.mk t, ?_⟩
    apply String.ext
    simp [data_append, hpt]

instance (q s : String) : Decidable (SubstringOf q s) :=
  decidable_of_iff _ (substringOf_iff_containsSubChars q s).symm

instance (q s : String) : Decidable (CISubstringOf q s) := by
  unfold CISubstringOf
  infer_instance

instance (q t : String) (e : TimestampEntry) : Decidable (SpecCond q t e) := by
  unfold SpecCond
  infer_instance

theorem cISubstringOf_iff (q s : String) :
    CISubstringOf q s ↔ jsIncludes (toLowerCase s) (toLowerCase q) = true :=
  substringOf_iff_containsSubChars (toLowerCase q) (toLowerCase s)

theorem bool_eq_of_iff {a b : Bool} (h : a = true ↔ b = true) : a = b := by
  cases a <;> cases b <;> simp_all

/-- The boolean tested by `filteredTimestamps` agrees with the claim
inclusion condition `SpecCond`. -/
theorem filter_pred_eq_specCond (q t : String) (e : TimestampEntry) :
    ((jsIncludes (toLowerCase e.topic) (toLowerCase q) ||
      jsIncludes (toLowerCase e.description) (toLowerCase q) ||
      e.keywords.any fun keyword =>
        jsIncludes (toLowerCase keyword) (toLowerCase q)) &&
     (t == "all" || e.topic == t)) = decide (SpecCond q t e) := by
  apply bool_eq_of_iff
  simp only [Bool.and_eq_true, Bool.or_eq_true, beq_iff_eq, List.any_eq_true,
    decide_eq_true_eq, SpecCond, cISubstringOf_iff]
  tauto

/-! ## Claim theorems: timestamp filtering and formatting -/

/-- Claim C4: `filteredTimestamps` returns exactly the subsequence of
the input, original order preserved, of entries for which the query is
a case-insensitive substring of topic, description or some keyword and
the selector is `"all"` or exactly the topic of the entry. -/
theorem filteredTimestamps_is_spec_filter (l : List TimestampEntry) (q t : String) :
    filteredTimestamps l q t = l.filter (fun e => decide (SpecCond q t e)) ∧
    (filteredTimestamps l q t).Sublist l := by
  constructor
  · unfold filteredTimestamps
    exact List.filter_congr fun e _ => filter_pred_eq_specCond q t e
  · exact List.filter_sublist _

theorem padStart_toString_lt60 :
    ∀ m, m < 60 → padStart (toString m) 2 '0' = zeroPad2 m := by decide

/-- Claim C5: `formatTime s` is the decimal minutes `s / 60`, a colon,
and the two-digit zero-padded seconds `s % 60`; in particular
`0 ↦ "0:00"`, `59 ↦ "0:59"`, `60 ↦ "1:00"`, `3661 ↦ "61:01"` (minutes
are not wrapped into hours). -/
theorem formatTime_spec :
    (∀ s : Nat, formatTime s = toString (s / 60) ++ ":" ++ zeroPad2 (s % 60)) ∧
    formatTime 0 = "0:00" ∧ formatTime 59 = "0:59" ∧
    formatTime 60 = "1:00" ∧ formatTime 3661 = "61:01" := by
  refine ⟨?_, by decide, by decide, by decide, by decide⟩
  intro s
  simp only [formatTime]
  rw [padStart_toString_lt60 (s % 60) (Nat.mod_lt s (by norm_num))]

/-- Claim C6: filtering with the empty query and topic selector
`"all"` returns the original list unchanged. -/
theorem filteredTimestamps_empty_query_all (l : List TimestampEntry) :
    filteredTimestamps l "" "all" = l := by
  unfold filteredTimestamps
  refine List.filter_eq_self.mpr fun e _ => ?_
  have h1 : jsIncludes (toLowerCase e.topic) (toLowerCase "") = true :=
    containsSubChars_nil_left _
  simp [h1]

/-- Claim C7: filtering is idempotent — filtering an already-filtered
list with the same query and selector returns it unchanged. -/
theorem filteredTimestamps_idem (l : List TimestampEntry) (q t : String) :
    filteredTimestamps (filteredTimestamps l q t) q t = filteredTimestamps l q t := by
  unfold filteredTimestamps
  rw [List.filter_filter]
  exact List.filter_congr fun e _ => Bool.and_self _

theorem jsSetList_go_mem :
    ∀ (xs : List String) (seen : List String) (y : String),
      y ∈ jsSetList.go seen xs ↔ y ∈ xs ∧ y ∉ seen := by
  intro xs
  induction xs with
  | nil => intro seen y; simp [jsSetList.go]
  | cons x xs ih =>
    intro seen y
    by_cases hx : x ∈ seen
    · simp only [jsSetList.go, if_pos hx, ih, List.mem_cons]
      constructor
      · rintro ⟨hy, hns⟩
        exact ⟨Or.inr hy, hns⟩
      · rintro ⟨hy | hy, hns⟩
        · subst hy; exact absurd hx hns
        · exact ⟨hy, hns⟩
    · simp only [jsSetList.go, if_neg hx, List.mem_cons, ih, List.mem_cons] at *
      constructor
      · rintro (rfl | ⟨hy, hns⟩)
        · exact ⟨Or.inl rfl, hx⟩
        · exact ⟨Or.inr hy, fun h => hns (Or.inr h)⟩
      · rintro ⟨rfl | hy, hns⟩
        · exact Or.inl rfl
        · by_cases hxy : y = x
          · exact Or.inl hxy
          · exact Or.inr ⟨hy, fun h => by cases h <;> simp_all⟩

theorem jsSetList_go_nodup :
    ∀ (xs : List String) (seen : List String), (jsSetList.go seen xs).Nodup := by
  intro xs
  induction xs with
  | nil => intro seen; simp [jsSetList.go]
  | cons x xs ih =>
    intro seen
    by_cases hx : x ∈ seen
    · simpa [jsSetList.go, if_pos hx] using ih seen
    · simp only [jsSetList.go, if_neg hx, List.nodup_cons]
      refine ⟨fun hmem => ?_, ih (x :: seen)⟩
      exact ((jsSetList_go_mem xs (x :: seen) x).mp hmem).2 (List.mem_cons_self x seen)

theorem specDedupFirstSeen_foldl_go :
    ∀ (xs acc seen : List String), (∀ y, y ∈ seen ↔ y ∈ acc) →
      List.foldl (fun acc x => if x ∈ acc then acc else acc ++ [x]) acc xs =
        acc ++ jsSetList.go seen xs := by
  intro xs
  induction xs with
  | nil => intro acc seen _; simp [jsSetList.go]
  | cons x xs ih =>
    intro acc seen hiff
    by_cases hx : x ∈ seen
    · have hxa : x ∈ acc := (hiff x).mp hx
      simp only [List.foldl_cons, if_pos hxa, jsSetList.go, if_pos hx]
      exact ih acc seen hiff
    · have hxa : x ∉ acc := fun h => hx ((hiff x).mpr h)
      simp only [List.foldl_cons, if_neg hxa, jsSetList.go, if_neg hx]
      rw [ih (acc ++ [x]) (x :: seen) ?_, List.append_assoc]
      · rfl
      · intro y
        simp only [List.mem_cons, List.mem_append, List.mem_singleton, hiff y]
        tauto

theorem jsSetList_eq_specDedupFirstSeen (l : List String) :
    jsSetList l = specDedupFirstSeen l := by
  have h := specDedupFirstSeen_foldl_go l [] [] (by simp)
  simpa [specDedupFirstSeen, jsSetList] using h.symm

/-- Claim C8: the topic options are the single string `"all"` followed
by the distinct topic values of the entries, de-duplicated, in
first-seen order. -/
theorem topics_is_all_then_firstSeen_dedup (l : List TimestampEntry) :
    topics l = "all" :: specDedupFirstSeen (l.map fun ts => ts.topic) ∧
    (specDedupFirstSeen (l.map fun ts => ts.topic)).Nodup ∧
    ∀ x, x ∈ specDedupFirstSeen (l.map fun ts => ts.topic) ↔
      x ∈ l.map fun ts => ts.topic := by
  refine ⟨?_, ?_, ?_⟩
  · unfold topics
    rw [jsSetList_eq_specDedupFirstSeen]
  · rw [← jsSetList_eq_specDedupFirstSeen]
    exact jsSetList_go_nodup _ _
  · intro x
    rw [← jsSetList_eq_specDedupFirstSeen]
    unfold jsSetList
    rw [jsSetList_go_mem]
    simp

/-! ## Quiz data model (spec §3) and scoring engine (QuizSection.js) -/

/-- `Question` of the spec data model. -/
structure Question where
  question : String
  options : List String
  correct_answer : String
  explanation : String
  deriving DecidableEq, Repr

/-- `Quiz` of the spec data model. -/
structure Quiz where
  title : String
  description : String
  total_questions : Nat
  estimated_time : Nat
  questions : List Question
  deriving DecidableEq, Repr

/-- One entry of `QuizResult.feedback`. -/
structure FeedbackRecord where
  questionIndex : Nat
  userAnswer : String
  correctAnswer : String
  isCorrect : Bool
  explanation : String
  deriving DecidableEq, Repr

/-- `QuizResult` of the spec data model.  `scorePercentage` is a JS
number; `none` models the non-finite value `NaN`. -/
structure QuizResult where
  totalQuestions : Nat
  correctAnswers : Nat
  scorePercentage : Option Int
  feedback : List FeedbackRecord
  deriving DecidableEq, Repr

/-- JS division `a / b`: `none` models the non-finite result (`NaN`
when `a = 0`, infinite otherwise) produced when `b = 0`; otherwise
exact division. -/
def jsDiv (a b : ℚ) : Option ℚ := if b = 0 then none else some (a / b)

/-- JS `Math.round` on a finite number: round half toward positive
infinity, that is `⌊x + 1/2⌋`. -/
def jsRound (x : ℚ) : Int := ⌊x + 1 / 2⌋

/-- The feedback record `calculateResults` pushes for question `q` at
index `i`: `userAnswer` is `answers[i] || "Not answered"` (JS `||`
falls through on the falsy empty string as well as on `undefined`),
and `isCorrect` is `answers[i] === q.correct_answer` (strict equality;
`undefined` never equals a string). -/
def mkFeedback (answers : Nat → Option String) (i : Nat) (q : Question) :
    FeedbackRecord :=
  { questionIndex := i
    userAnswer :=
      match answers i with
      | some s => if s = "" then "Not answered" else s
      | none => "Not answered"
    correctAnswer := q.correct_answer
    isCorrect :=
      match answers i with
      | some s => s == q.correct_answer
      | none => false
    explanation := q.explanation }

/-- The `feedback` array built by the `forEach` loop of
`calculateResults`, starting at index `start`. -/
def feedbackList (answers : Nat → Option String) :
    Nat → List Question → List FeedbackRecord
  | _, [] => []
  | start, q :: qs =>
    mkFeedback answers start q :: feedbackList answers (start + 1) qs

/-- The `correctAnswers` counter accumulated by the same loop. -/
def correctCount (answers : Nat → Option String) : Nat → List Question → Nat
  | _, [] => 0
  | start, q :: qs =>
    (if (mkFeedback answers start q).isCorrect then 1 else 0) +
      correctCount answers (start + 1) qs

/-- Source: `QuizSection.js`, `calculateResults`. -/
def calculateResults (quiz : Quiz) (answers : Nat → Option String) : QuizResult :=
  let correctAnswers := correctCount answers 0 quiz.questions
  { totalQuestions := quiz.questions.length
    correctAnswers := correctAnswers
    scorePercentage :=
      (jsDiv (correctAnswers : ℚ) (quiz.questions.length : ℚ)).map fun r =>
        jsRound (r * 100)
    feedback := feedbackList answers 0 quiz.questions }

/-- Placeholder record used only as the out-of-range default of
`List.getD`. -/
def defaultFeedback : FeedbackRecord :=
  { questionIndex := 0, userAnswer := "", correctAnswer := "",
    isCorrect := false, explanation := "" }

/-- Placeholder question used only as the out-of-range default of
`List.getD`. -/
def defaultQuestion : Question :=
  { question := "", options := [], correct_answer := "", explanation := "" }

/-! ## Structure of the feedback list -/

theorem feedbackList_length (answers : Nat → Option String) :
    ∀ (qs : List Question) (start : Nat),
      (feedbackList answers start qs).length = qs.length := by
  intro qs
  induction qs with
  | nil => intro start; rfl
  | cons q qs ih => intro start; simp [feedbackList, ih]

theorem feedbackList_getD (answers : Nat → Option String) :
    ∀ (qs : List Question) (start j : Nat), j < qs.length →
      (feedbackList answers start qs).getD j defaultFeedback =
        mkFeedback answers (start + j) (qs.getD j defaultQuestion) := by
  intro qs
  induction qs with
  | nil => intro start j hj; simp at hj
  | cons q qs ih =>
    intro start j hj
    cases j with
    | zero => simp [feedbackList]
    | succ j =>
      have hj' : j < qs.length := by simpa using hj
      simp only [feedbackList, List.getD_cons_succ, ih (start + 1) j hj']
      ring_nf

theorem feedbackList_get (answers : Nat → Option String) :
    ∀ (qs : List Question) (start : Nat)
      (j : Fin (feedbackList answers start qs).length),
      ((feedbackList answers start qs).get j).questionIndex = start + j.val := by
  intro qs
  induction qs with
  | nil => intro start j; exact absurd j.isLt (by simp [feedbackList])
  | cons q qs ih =>
    intro start j
    match j with
    | ⟨0, _⟩ => simp [feedbackList, mkFeedback]
    | ⟨j' + 1, hj⟩ =>
      have hj' : j' < (feedbackList answers (start + 1) qs).length := by
        simpa [feedbackList] using hj
      have := ih (start + 1) ⟨j', hj'⟩
      simp only [feedbackList, List.get] at this ⊢
      omega

theorem correctCount_le (answers : Nat → Option String) :
    ∀ (qs : List Question) (start : Nat),
      correctCount answers start qs ≤ qs.length := by
  intro qs
  induction qs with
  | nil => intro start; exact Nat.le_refl 0
  | cons q qs ih =>
    intro start
    simp only [correctCount, List.length_cons]
    have := ih (start + 1)
    split <;> omega

theorem correctCount_eq_countP (answers : Nat → Option String) :
    ∀ (qs : List Question) (start : Nat),
      correctCount answers start qs =
        (feedbackList answers start qs).countP fun f => f.isCorrect := by
  intro qs
  induction qs with
  | nil => intro start; rfl
  | cons q qs ih =>
    intro start
    simp only [correctCount, feedbackList, List.countP_cons, ih (start + 1)]
    by_cases h : (mkFeedback answers start q).isCorrect <;> simp [h, Nat.add_comm]

theorem calculateResults_feedback_eq (quiz : Quiz) (answers : Nat → Option String) :
    (calculateResults quiz answers).feedback = feedbackList answers 0 quiz.questions :=
  rfl

/-! ## Claim theorems: quiz scoring engine -/

/-- Claim C1 as amended: when the quiz has at least one question,
`scorePercentage` is a finite integer in `[0, 100]` equal to
round-half-up of `100 * correctAnswers / totalQuestions`; when the
quiz has zero questions, the engine still returns, but with the
non-finite `NaN` (here `none`) rather than `0`. -/
theorem calculateResults_scorePercentage_spec (quiz : Quiz)
    (answers : Nat → Option String) :
    (quiz.questions.length = 0 →
      (calculateResults quiz answers).scorePercentage = none) ∧
    (0 < quiz.questions.length →
      ∃ z : Int, (calculateResults quiz answers).scorePercentage = some z ∧
        0 ≤ z ∧ z ≤ 100 ∧
        z = ⌊(100 : ℚ) * ((calculateResults quiz answers).correctAnswers : ℚ) /
              ((calculateResults quiz answers).totalQuestions : ℚ) + 1 / 2⌋) := by
  constructor
  · intro h0
    simp [calculateResults, jsDiv, h0]
  · intro hpos
    have hne : ((quiz.questions.length : ℚ)) ≠ 0 := by
      exact_mod_cast Nat.pos_iff_ne_zero.mp hpos
    have hnpos : (0 : ℚ) < (quiz.questions.length : ℚ) := by exact_mod_cast hpos
    set c : Nat := correctCount answers 0 quiz.questions with hc
    have hcle : (c : ℚ) ≤ (quiz.questions.length : ℚ) := by
      exact_mod_cast correctCount_le answers quiz.questions 0
    have hdiv1 : (c : ℚ) / (quiz.questions.length : ℚ) ≤ 1 :=
      (div_le_one hnpos).mpr hcle
    have hdiv0 : (0 : ℚ) ≤ (c : ℚ) / (quiz.questions.length : ℚ) := by positivity
    refine ⟨jsRound ((c : ℚ) / (quiz.questions.length : ℚ) * 100), ?_, ?_, ?_, ?_⟩
    · simp [calculateResults, jsDiv, hne, hc]
    · exact Int.le_floor.mpr (by push_cast; linarith)
    · have hlt : jsRound ((c : ℚ) / (quiz.questions.length : ℚ) * 100) < 101 := by
        apply Int.floor_lt.mpr
        push_cast
        nlinarith
      omega
    · show jsRound _ = _
      unfold jsRound
      congr 1
      show (c : ℚ) / (quiz.questions.length : ℚ) * 100 + 1 / 2 =
        (100 : ℚ) * ((correctCount answers 0 quiz.questions : ℚ)) /
          ((quiz.questions.length : ℚ)) + 1 / 2
      rw [← hc]
      ring

def quizC1 : Quiz :=
  { title := "empty", description := "", total_questions := 0,
    estimated_time := 0, questions := [] }

def answersNoneC1 : Nat → Option String := fun _ => none

/-- Claim C1 counterexample: on a quiz with zero questions the engine
returns `NaN` (modeled `none`) as `scorePercentage`, not `0`. -/
theorem calculateResults_zero_questions_cex :
    (calculateResults quizC1 answersNoneC1).scorePercentage = none ∧
    (calculateResults quizC1 answersNoneC1).scorePercentage ≠ some 0 := by
  refine ⟨rfl, ?_⟩
  intro hx
  exact Option.noConfusion hx

def quizC1w : Quiz :=
  { title := "t", description := "d", total_questions := 3, estimated_time := 5,
    questions :=
      [{ question := "q0", options := ["A", "X"], correct_answer := "A",
         explanation := "e0" },
       { question := "q1", options := ["B", "X"], correct_answer := "B",
         explanation := "e1" },
       { question := "q2", options := ["C", "X"], correct_answer := "C",
         explanation := "e2" }] }

def answersC1w : Nat → Option String := fun i =>
  if i = 0 then some "A" else if i = 1 then some "B" else none

theorem calculateResults_scorePercentage_spec_witness :
    0 < quizC1w.questions.length ∧
    (∃ z : Int, (calculateResults quizC1w answersC1w).scorePercentage = some z ∧
      0 ≤ z ∧ z ≤ 100 ∧
      z = ⌊(100 : ℚ) * ((calculateResults quizC1w answersC1w).correctAnswers : ℚ) /
            ((calculateResults quizC1w answersC1w).totalQuestions : ℚ) + 1 / 2⌋) :=
  ⟨by decide, (calculateResults_scorePercentage_spec quizC1w answersC1w).2 (by decide)⟩

/-- Claim C2: the feedback of a question has `isCorrect = true` iff the
answer mapping has an entry at the index of that question whose option
string equals the `correct_answer` of the question exactly; a missing entry
is never marked correct. -/
theorem feedback_isCorrect_iff (quiz : Quiz) (answers : Nat → Option String)
    (i : Nat) (h : i < quiz.questions.length) :
    ((calculateResults quiz answers).feedback.getD i defaultFeedback).isCorrect =
        true ↔
      answers i = some ((quiz.questions.getD i defaultQuestion).correct_answer) := by
  rw [calculateResults_feedback_eq, feedbackList_getD answers quiz.questions 0 i h]
  simp only [mkFeedback, Nat.zero_add]
  cases ha : answers i with
  | none => simp
  | some s => simp [beq_iff_eq]

def quizC2 : Quiz :=
  { title := "t", description := "d", total_questions := 1, estimated_time := 1,
    questions := [{ question := "q", options := ["A", "B"],
                    correct_answer := "A", explanation := "e" }] }

def answersC2 : Nat → Option String := fun i => if i = 0 then some "A" else none

theorem feedback_isCorrect_iff_witness :
    ((calculateResults quizC2 answersC2).feedback.getD 0 defaultFeedback).isCorrect =
        true ↔
      answersC2 0 = some ((quizC2.questions.getD 0 defaultQuestion).correct_answer) :=
  feedback_isCorrect_iff quizC2 answersC2 0 (by decide)

/-- Claim C3 as amended: the `userAnswer` of a feedback record is the mapped
option string when an entry exists and that string is non-empty, and is
the sentinel `"Not answered"` when no entry exists or the mapped option
is the empty string (the JS `||` fallback also fires on the falsy empty
string). -/
theorem feedback_userAnswer_spec (quiz : Quiz) (answers : Nat → Option String)
    (i : Nat) (s : String) (h : i < quiz.questions.length) :
    ((answers i = some s ∧ s ≠ "") →
      ((calculateResults quiz answers).feedback.getD i defaultFeedback).userAnswer =
        s) ∧
    ((answers i = none ∨ answers i = some "") →
      ((calculateResults quiz answers).feedback.getD i defaultFeedback).userAnswer =
        "Not answered") := by
  rw [calculateResults_feedback_eq, feedbackList_getD answers quiz.questions 0 i h]
  simp only [mkFeedback, Nat.zero_add]
  constructor
  · rintro ⟨ha, hs⟩
    rw [ha]
    simp [hs]
  · rintro (ha | ha) <;> simp [ha]

def quizC3 : Quiz :=
  { title := "t", description := "d", total_questions := 1, estimated_time := 1,
    questions := [{ question := "pick", options := ["", "A"],
                    correct_answer := "A", explanation := "e" }] }

def answersC3 : Nat → Option String := fun i => if i = 0 then some "" else none

/-- Claim C3 counterexample: with an entry mapping question 0 to the
empty-string option, the feedback shows the sentinel `"Not answered"`,
not the mapped option. -/
theorem feedback_userAnswer_empty_option_cex :
    answersC3 0 = some "" ∧
    ((calculateResults quizC3 answersC3).feedback.map fun f => f.userAnswer) =
      ["Not answered"] ∧
    ("" : String) ≠ "Not answered" := by
  refine ⟨rfl, rfl, by decide⟩

def quizC3w : Quiz :=
  { title := "t", description := "d", total_questions := 1, estimated_time := 1,
    questions := [{ question := "q", options := ["A", "B"],
                    correct_answer := "B", explanation := "e" }] }

def answersC3w : Nat → Option String := fun i => if i = 0 then some "A" else none

theorem feedback_userAnswer_spec_witness :
    ((answersC3w 0 = some "A" ∧ ("A" : String) ≠ "") →
      ((calculateResults quizC3w answersC3w).feedback.getD 0
          defaultFeedback).userAnswer = "A") ∧
    ((answersC3w 0 = none ∨ answersC3w 0 = some "") →
      ((calculateResults quizC3w answersC3w).feedback.getD 0
          defaultFeedback).userAnswer = "Not answered") :=
  feedback_userAnswer_spec quizC3w answersC3w 0 "A" (by decide)

/-- Claim C10: the `QuizResult` is internally consistent — one feedback
record per question carrying its own index, `totalQuestions` equal to
both the question count and the feedback length, and `correctAnswers`
equal to the number of records marked correct, hence at most
`totalQuestions`. -/
theorem calculateResults_internally_consistent (quiz : Quiz)
    (answers : Nat → Option String) :
    (calculateResults quiz answers).totalQuestions = quiz.questions.length ∧
    (calculateResults quiz answers).feedback.length =
      (calculateResults quiz answers).totalQuestions ∧
    (∀ j : Fin (calculateResults quiz answers).feedback.length,
      ((calculateResults quiz answers).feedback.get j).questionIndex = j.val) ∧
    (calculateResults quiz answers).correctAnswers =
      (calculateResults quiz answers).feedback.countP (fun f => f.isCorrect) ∧
    (calculateResults quiz answers).correctAnswers ≤
      (calculateResults quiz answers).totalQuestions := by
  refine ⟨rfl, feedbackList_length answers quiz.questions 0, ?_, ?_, ?_⟩
  · intro j
    have := feedbackList_get answers quiz.questions 0 j
    simpa using this
  · exact correctCount_eq_countP answers quiz.questions 0
  · exact correctCount_le answers quiz.questions 0

/-! ## Quiz page state machine: answer selection and the submit gate -/

/-- Source: `QuizSection.js`, `handleAnswerSelect`.  The JS object
spread `{...prev, [questionIndex]: answer}` replaces the value when the
key is already present and adds a new key otherwise.  `userAnswers` is
embedded as an association list from question index to option. -/
def handleAnswerSelect (prev : List (Nat × String)) (questionIndex : Nat)
    (answer : String) : List (Nat × String) :=
  if prev.any fun p => p.1 == questionIndex then
    prev.map fun p => if p.1 == questionIndex then (questionIndex, answer) else p
  else prev ++ [(questionIndex, answer)]

/-- Source: `QuizSection.js`, the `disabled` prop of the Submit Quiz
button: `Object.keys(userAnswers).length < currentQuiz.questions.length`. -/
def submitDisabled (numQuestions : Nat) (userAnswers : List (Nat × String)) : Bool :=
  decide (userAnswers.length < numQuestions)

/-- The submit control is enabled iff it is not disabled. -/
def submitEnabled (numQuestions : Nat) (userAnswers : List (Nat × String)) : Bool :=
  !(submitDisabled numQuestions userAnswers)

/-- States of the quiz page reachable from the initial empty answer
mapping by answer-select steps (recording an option under a question
index of the current quiz, as the rendered radio buttons do) and reset
steps (`resetQuiz`, which clears the mapping). -/
inductive Reachable (n : Nat) : List (Nat × String) → Prop where
  | init : Reachable n []
  | select {m : List (Nat × String)} (i : Nat) (a : String) :
      Reachable n m → i < n → Reachable n (handleAnswerSelect m i a)
  | reset {m : List (Nat × String)} : Reachable n m → Reachable n []

/-- Invariant of reachable answer mappings: keys are distinct (so
`Object.keys(...).length` is the number of answered questions) and
every key is a question index of the current quiz. -/
def GoodState (n : Nat) (m : List (Nat × String)) : Prop :=
  (m.map Prod.fst).Nodup ∧ ∀ p ∈ m, p.1 < n

theorem map_fst_update (m : List (Nat × String)) (i : Nat) (a : String) :
    ((m.map fun p => if p.1 == i then (i, a) else p).map Prod.fst) =
      m.map Prod.fst := by
  rw [List.map_map]
  apply List.map_congr_left
  intro p _
  by_cases h : p.1 = i
  · simp [h]
  · simp [h]

theorem goodState_select {n : Nat} {m : List (Nat × String)} (i : Nat) (a : String)
    (hg : GoodState n m) (hi : i < n) :
    GoodState n (handleAnswerSelect m i a) := by
  obtain ⟨hnd, hlt⟩ := hg
  unfold handleAnswerSelect
  by_cases hany : (m.any fun p => p.1 == i) = true
  · rw [if_pos hany]
    constructor
    · rw [map_fst_update]
      exact hnd
    · intro p hp
      rcases List.mem_map.mp hp with ⟨p', hp', hval⟩
      by_cases h : p'.1 = i
      · simp only [h, beq_self_eq_true, if_pos] at hval
        rw [← hval]
        exact hi
      · simp only [beq_iff_eq, h, if_neg, if_false] at hval
        rw [← hval]
        exact hlt p' hp'
  · rw [if_neg hany]
    have hnotin : i ∉ m.map Prod.fst := by
      intro hmem
      rcases List.mem_map.mp hmem with ⟨p, hp, hval⟩
      apply hany
      exact List.any_eq_true.mpr ⟨p, hp, beq_iff_eq.mpr hval⟩
    constructor
    · rw [List.map_append]
      rw [List.nodup_append]
      refine ⟨hnd, List.nodup_singleton i, ?_⟩
      intro x hx hx'
      rcases List.mem_singleton.mp hx' with rfl
      exact hnotin hx
    · intro p hp
      rcases List.mem_append.mp hp with hp | hp
      · exact hlt p hp
      · rcases List.mem_singleton.mp hp with rfl
        exact hi

theorem reachable_goodState {n : Nat} {m : List (Nat × String)}
    (h : Reachable n m) : GoodState n m := by
  induction h with
  | init => exact ⟨List.nodup_nil, by intro p hp; cases hp⟩
  | select i a _ hi ih => exact goodState_select i a ih hi
  | reset _ => exact ⟨List.nodup_nil, by intro p hp; cases hp⟩

theorem goodState_length_iff {n : Nat} {m : List (Nat × String)}
    (hg : GoodState n m) :
    ¬ m.length < n ↔ ∀ i, i < n → (m.any fun p => p.1 == i) = true := by
  obtain ⟨hnd, hlt⟩ := hg
  have hcard : (m.map Prod.fst).toFinset.card = m.length := by
    rw [List.toFinset_card_of_nodup hnd, List.length_map]
  have hsub : (m.map Prod.fst).toFinset ⊆ Finset.range n := by
    intro x hx
    rcases List.mem_map.mp (List.mem_toFinset.mp hx) with ⟨p, hp, hval⟩
    exact Finset.mem_range.mpr (hval ▸ hlt p hp)
  constructor
  · intro hge i hi
    have hcardle : (Finset.range n).card ≤ (m.map Prod.fst).toFinset.card := by
      rw [Finset.card_range, hcard]
      omega
    have heq := Finset.eq_of_subset_of_card_le hsub hcardle
    have hmem : i ∈ (m.map Prod.fst).toFinset := by
      rw [heq]
      exact Finset.mem_range.mpr hi
    rcases List.mem_map.mp (List.mem_toFinset.mp hmem) with ⟨p, hp, hval⟩
    exact List.any_eq_true.mpr ⟨p, hp, beq_iff_eq.mpr hval⟩
  · intro hall
    have hsub' : Finset.range n ⊆ (m.map Prod.fst).toFinset := by
      intro i hi
      rcases List.any_eq_true.mp (hall i (Finset.mem_range.mp hi)) with ⟨p, hp, hbeq⟩
      exact List.mem_toFinset.mpr
        (List.mem_map.mpr ⟨p, hp, beq_iff_eq.mp hbeq⟩)
    have := Finset.card_le_card hsub'
    rw [Finset.card_range, hcard] at this
    omega

/-- Claim C9: in every reachable state of the quiz page, the submit
control is enabled iff every question index of the current quiz has an
entry in the answer mapping; submission is never permitted with an
unanswered question. -/
theorem submitEnabled_iff_all_answered (n : Nat) (m : List (Nat × String))
    (h : Reachable n m) :
    submitEnabled n m = true ↔
      ∀ i, i < n → (m.any fun p => p.1 == i) = true := by
  unfold submitEnabled submitDisabled
  rw [Bool.not_eq_true', decide_eq_false_iff_not]
  exact goodState_length_iff (reachable_goodState h)

theorem submitEnabled_iff_all_answered_witness :
    submitEnabled 1 (handleAnswerSelect [] 0 "A") = true ↔
      ∀ i, i < 1 →
        ((handleAnswerSelect [] 0 "A").any fun p => p.1 == i) = true :=
  submitEnabled_iff_all_answered 1 (handleAnswerSelect [] 0 "A")
    (Reachable.select 0 "A" Reachable.init (by decide))

end StudyBuddy
